import Mathlib

/-!
Shallow embedding of the `Digest` trait of `src/digest/src/digest.rs`
(repository matklad/traits).

The trait is generic over a hasher type implementing `Input` (method
`process`), `FixedOutput` (method `fixed_result`, associated type-level
constant `OutputSize`) and `Default`.  Those three capability declarations
live outside `src/`, so they are modelled from the spec as the fields of a
`HashAlg` record: an arbitrary state type `σ` together with the operations
the spec describes.  Bytes are modelled as `Nat`, byte buffers as
`List Nat`.  Every provided method of the trait is embedded as a function
taking the algorithm record `A : HashAlg σ` in place of the `Self` type.
-/

namespace Traits

/-- Modelled from the spec: the external collaborator contract behind a
concrete hasher type.  `process` (the `Input` capability, spec §4.1)
appends a byte buffer to the computation; `fixed_result` (the
`FixedOutput` capability, spec §4.2) is invoked through a mutable
reference, so it returns both the fixed-length output and the
(implementation-defined) post-finalize hasher state; `default` is the
`Default` construction (initial state); `outputSize` is the type-level
constant `OutputSize::to_usize()`.  The declarations of `Input` and
`FixedOutput` are outside `src/`. -/
structure HashAlg (σ : Type) where
  process : σ → List Nat → σ
  fixed_result : σ → List Nat × σ
  default : σ
  outputSize : Nat

variable {σ ε : Type}

/-- `Digest::new`: `Self::default()`. -/
def new (A : HashAlg σ) : σ :=
  A.default

/-- `Digest::input`: `self.process(buf)`. -/
def input (A : HashAlg σ) (h : σ) (buf : List Nat) : σ :=
  A.process h buf

/-- `Digest::result`: `self.fixed_result()` — output together with the
state the hasher is left in. -/
def result (A : HashAlg σ) (h : σ) : List Nat × σ :=
  A.fixed_result h

/-- `Digest::output_size`: `Self::OutputSize::to_usize()`. -/
def output_size (A : HashAlg σ) : Nat :=
  A.outputSize

/-- `Digest::digest`: default-construct, `input(data)`, `fixed_result()`. -/
def digest (A : HashAlg σ) (data : List Nat) : List Nat :=
  (A.fixed_result (input A A.default data)).1

/-- UTF-8 byte encoding of a string (`str::as_bytes`). -/
def utf8Bytes (s : String) : List Nat :=
  s.toUTF8.toList.map (fun b => b.toNat)

/-- `Digest::input_str`: `Self::digest(str.as_bytes())`. -/
def input_str (A : HashAlg σ) (s : String) : List Nat :=
  digest A (utf8Bytes s)

/-- One observed outcome of a `source.read(&mut buffer)` call: either the
call fails with error `e`, or it succeeds returning the count `n` of bytes
it claims to have read, having written the byte list `w` at the start of
the buffer. -/
inductive ReadEv (ε : Type) where
  | err : ε → ReadEv ε
  | ok : Nat → List Nat → ReadEv ε
deriving DecidableEq, Repr

/-- Outcome of running `digest_reader` against a finite trace of read
events: normal return `Ok(x)`, early return `Err(e)` from the `?`
operator, a panic from an out-of-bounds buffer slice, or `blocked` when
the loop issues a further read but the trace has no more events. -/
inductive RunResult (ε : Type) (α : Type) where
  | ok : α → RunResult ε α
  | err : ε → RunResult ε α
  | panic : RunResult ε α
  | blocked : RunResult ε α
deriving DecidableEq, Repr

/-- Effect of a read call on the 1024-byte buffer: the `w` bytes the
source wrote land at the front, the rest of the previous contents persist;
writes beyond the buffer length are truncated. -/
def writeBuf (buf w : List Nat) : List Nat :=
  w.take buf.length ++ buf.drop w.length

/-- The read loop of `Digest::digest_reader`, one iteration per trace
event: `let bytes_read = source.read(&mut buffer)?;` then
`hasher.input(&buffer[..bytes_read]);` (a panic if `bytes_read` exceeds
the buffer length), then `if bytes_read == 0 { break }`. -/
def digestReaderLoop (A : HashAlg σ) : σ → List Nat → List (ReadEv ε) → RunResult ε σ
  | _, _, [] => .blocked
  | _, _, .err e :: _ => .err e
  | h, buf, .ok n w :: rest =>
    let buf' := writeBuf buf w
    if n ≤ buf'.length then
      let h' := input A h (buf'.take n)
      if n = 0 then .ok h' else digestReaderLoop A h' buf' rest
    else .panic

/-- `Digest::digest_reader`: default-construct the hasher, zero a
1024-byte buffer, run the read loop, and on normal exit return
`Ok(hasher.result())`. -/
def digest_reader (A : HashAlg σ) (source : List (ReadEv ε)) : RunResult ε (List Nat) :=
  match digestReaderLoop A A.default (List.replicate 1024 0) source with
  | .ok h => .ok (result A h).1
  | .err e => .err e
  | .panic => .panic
  | .blocked => .blocked

/-- A read outcome at the abstraction level of the spec: a failure, or the
chunk of bytes actually read (empty chunk = end of stream). -/
inductive SpecRead (ε : Type) where
  | err : ε → SpecRead ε
  | chunk : List Nat → SpecRead ε
deriving DecidableEq, Repr

/-- Modelled from the spec, §4.4 read loop of `digest_stream`: repeat
{ read a chunk; feed exactly the bytes actually read to update (including
the zero-length terminating chunk); if the read returned 0 bytes, stop };
a failing read aborts immediately. -/
def specStreamLoop (A : HashAlg σ) : σ → List (SpecRead ε) → RunResult ε σ
  | _, [] => .blocked
  | _, .err e :: _ => .err e
  | h, .chunk c :: rest =>
    let h' := A.process h c
    if c.length = 0 then .ok h' else specStreamLoop A h' rest

/-- Modelled from the spec, §4.4: `digest_stream(source)` — construct a
hasher, run the chunk loop, return `finalize()` of the hasher. -/
def digest_stream_spec (A : HashAlg σ) (source : List (SpecRead ε)) : RunResult ε (List Nat) :=
  match specStreamLoop A A.default source with
  | .ok h => .ok (A.fixed_result h).1
  | .err e => .err e
  | .panic => .panic
  | .blocked => .blocked

/-- The read event corresponding to a well-behaved read outcome: a
failure fails, and a read of chunk `c` writes `c` into the buffer and
reports exactly `c.length` bytes read. -/
def SpecRead.toEv : SpecRead ε → ReadEv ε
  | .err e => .err e
  | .chunk c => .ok c.length c

/-- The event of a well-behaved successful read of chunk `c`. -/
def chunkEv (c : List Nat) : ReadEv ε :=
  .ok c.length c

/-- The count of bytes a read event reports (0 for a failed read). -/
def ReadEv.reported : ReadEv ε → Nat
  | .err _ => 0
  | .ok n _ => n

/-- Whether a read event is a successful read. -/
def ReadEv.isOk : ReadEv ε → Bool
  | .err _ => false
  | .ok _ _ => true

/-- The length of the chunk a spec-level read outcome carries (0 for a
failed read). -/
def SpecRead.chunkLen : SpecRead ε → Nat
  | .err _ => 0
  | .chunk c => c.length

/-- Toy conforming algorithm used to witness the hypotheses of the
theorems: state is the list of bytes fed so far, the output is four bytes
derived from it. -/
def toyAlg : HashAlg (List Nat) where
  process := fun h b => h ++ b
  fixed_result := fun h =>
    ([h.length % 256, (h.foldr (fun x y => (x + y) % 256) 0), 37, 91], h)
  default := []
  outputSize := 4

theorem writeBuf_length (buf w : List Nat) :
    (writeBuf buf w).length = buf.length := by
  simp [writeBuf]
  omega

theorem writeBuf_take (buf w : List Nat) (hw : w.length ≤ buf.length) :
    (writeBuf buf w).take w.length = w := by
  unfold writeBuf
  rw [List.take_of_length_le hw]
  exact List.take_left w (buf.drop w.length)

theorem toyAlg_process_empty (h : List Nat) : toyAlg.process h [] = h := by
  simp [toyAlg]

theorem toyAlg_process_append (h a b : List Nat) :
    toyAlg.process (toyAlg.process h a) b = toyAlg.process h (a ++ b) := by
  simp [toyAlg]

theorem toyAlg_output_len (h : List Nat) :
    (toyAlg.fixed_result h).1.length = toyAlg.outputSize := by
  simp [toyAlg]

theorem digestReaderLoop_map_toEv (A : HashAlg σ) (cs : List (SpecRead ε)) :
    ∀ (h : σ) (buf : List Nat), buf.length = 1024 →
    (∀ ev ∈ cs, SpecRead.chunkLen ev ≤ 1024) →
    digestReaderLoop A h buf (cs.map SpecRead.toEv) = specStreamLoop A h cs := by
  induction cs with
  | nil => intro h buf _ _; rfl
  | cons ev rest ih =>
    intro h buf hb hc
    cases ev with
    | err e => rfl
    | chunk c =>
      have hclen : c.length ≤ 1024 := hc (.chunk c) (by simp)
      have hble : c.length ≤ buf.length := by omega
      have hle : c.length ≤ (writeBuf buf c).length := by
        rw [writeBuf_length]; omega
      simp only [List.map_cons, SpecRead.toEv, digestReaderLoop, specStreamLoop]
      rw [if_pos hle, writeBuf_take buf c hble]
      by_cases h0 : c.length = 0
      · rw [if_pos h0, if_pos h0]; rfl
      · rw [if_neg h0, if_neg h0]
        exact ih (A.process h c) (writeBuf buf c)
          (by rw [writeBuf_length, hb])
          (fun ev hev => hc ev (by simp [hev]))

/-- Claim C2: against any well-behaved source — each read either fails,
or writes the chunk it actually read (at most 1024 bytes) into the buffer
and reports its exact length — `Digest::digest_reader` computes exactly
what the spec algorithm `digest_stream` prescribes: default-construct,
loop reading up to 1024 bytes, feed exactly the bytes actually read
(including the zero-length slice of the terminating read), stop on a
0-byte read, return the hasher's result. -/
theorem digest_reader_eq_digest_stream_spec (A : HashAlg σ) (cs : List (SpecRead ε))
    (hc : ∀ ev ∈ cs, SpecRead.chunkLen ev ≤ 1024) :
    digest_reader A (cs.map SpecRead.toEv) = digest_stream_spec A cs := by
  unfold digest_reader digest_stream_spec
  rw [digestReaderLoop_map_toEv A cs A.default (List.replicate 1024 0)
    (by rw [List.length_replicate]) hc]
  cases specStreamLoop A A.default cs <;> rfl

theorem digestReaderLoop_chunks (A : HashAlg σ) (cs : List (List Nat))
    (tail : List (ReadEv ε)) :
    ∀ (h : σ) (buf : List Nat), buf.length = 1024 →
    (∀ c ∈ cs, c ≠ [] ∧ c.length ≤ 1024) →
    ∃ buf2 : List Nat, buf2.length = 1024 ∧
      digestReaderLoop A h buf (cs.map chunkEv ++ tail) =
      digestReaderLoop A (cs.foldl A.process h) buf2 tail := by
  induction cs with
  | nil => intro h buf hb _; exact ⟨buf, hb, rfl⟩
  | cons c cs ih =>
    intro h buf hb hc
    obtain ⟨hne, hclen⟩ := hc c (by simp)
    have hble : c.length ≤ buf.length := by omega
    have hle : c.length ≤ (writeBuf buf c).length := by
      rw [writeBuf_length]; omega
    have h0 : c.length ≠ 0 := by
      intro h0
      exact hne (List.eq_nil_of_length_eq_zero h0)
    obtain ⟨buf2, hb2, heq⟩ := ih (A.process h c) (writeBuf buf c)
      (by rw [writeBuf_length, hb]) (fun c' hc' => hc c' (by simp [hc']))
    refine ⟨buf2, hb2, ?_⟩
    simp only [List.map_cons, chunkEv, List.cons_append, digestReaderLoop, input,
      List.foldl_cons]
    rw [if_pos hle, writeBuf_take buf c hble, if_neg h0]
    exact heq

theorem foldl_process_flatten (A : HashAlg σ)
    (hemp : ∀ h, A.process h [] = h)
    (happ : ∀ h a b, A.process (A.process h a) b = A.process h (a ++ b)) :
    ∀ (cs : List (List Nat)) (h : σ), cs.foldl A.process h = A.process h cs.flatten := by
  intro cs
  induction cs with
  | nil =>
    intro h
    simp only [List.foldl_nil, List.flatten_nil]
    exact (hemp h).symm
  | cons c cs ih =>
    intro h
    simp only [List.foldl_cons, List.flatten_cons]
    rw [ih, happ]

/-- Claim C3: when every read before the failure is well-behaved and
nonempty, a failing read makes `digest_reader` return exactly that
failure, with no partial output: the loop aborts at the `?`, the hasher
state is dropped, and no further read event is consumed. -/
theorem digest_reader_surfaces_read_failure (A : HashAlg σ) (cs : List (List Nat))
    (e : ε) (rest : List (ReadEv ε))
    (hc : ∀ c ∈ cs, c ≠ [] ∧ c.length ≤ 1024) :
    digest_reader A (cs.map chunkEv ++ ReadEv.err e :: rest) = RunResult.err e := by
  unfold digest_reader
  obtain ⟨buf2, hb2, heq⟩ := digestReaderLoop_chunks A cs (ReadEv.err e :: rest)
    A.default (List.replicate 1024 0) (by rw [List.length_replicate]) hc
  rw [heq]
  rfl

/-- Claim C4: for an algorithm whose `process` satisfies streaming
equivalence and treats the empty buffer as a no-op, `digest_reader` over
a source yielding nonempty chunks (each at most 1024 bytes) followed by a
zero-length terminator equals the one-shot `digest` of the concatenation
of the chunks. -/
theorem digest_reader_chunks_eq_digest_concat (A : HashAlg σ)
    (hemp : ∀ h, A.process h [] = h)
    (happ : ∀ h a b, A.process (A.process h a) b = A.process h (a ++ b))
    (cs : List (List Nat)) (hc : ∀ c ∈ cs, c ≠ [] ∧ c.length ≤ 1024) :
    digest_reader (ε := ε) A (cs.map chunkEv ++ [chunkEv []]) =
      RunResult.ok (digest A cs.flatten) := by
  unfold digest_reader
  obtain ⟨buf2, hb2, heq⟩ := digestReaderLoop_chunks A cs [chunkEv []]
    A.default (List.replicate 1024 0) (by rw [List.length_replicate]) hc
  rw [heq]
  have hstep : digestReaderLoop (ε := ε) A (cs.foldl A.process A.default) buf2
      [chunkEv []] = RunResult.ok (A.process (cs.foldl A.process A.default) []) := by
    simp [digestReaderLoop, chunkEv, writeBuf, input]
  rw [hstep, hemp, foldl_process_flatten A hemp happ cs A.default]
  rfl

theorem digestReaderLoop_ne_err (A : HashAlg σ) (e : ε) (evs : List (ReadEv ε)) :
    ∀ (h : σ) (buf : List Nat), (∀ ev ∈ evs, ReadEv.isOk ev = true) →
    digestReaderLoop A h buf evs ≠ RunResult.err e := by
  induction evs with
  | nil => intro h buf _; simp [digestReaderLoop]
  | cons ev rest ih =>
    intro h buf hne
    cases ev with
    | err e0 => exact absurd (hne (.err e0) (by simp)) (by simp [ReadEv.isOk])
    | ok n w =>
      simp only [digestReaderLoop]
      by_cases hle : n ≤ (writeBuf buf w).length
      · rw [if_pos hle]
        by_cases h0 : n = 0
        · rw [if_pos h0]; simp
        · rw [if_neg h0]
          exact ih _ _ (fun ev hev => hne ev (by simp [hev]))
      · rw [if_neg hle]; simp

/-- Claim C8: `digest_reader` is the only facade operation that can fail,
and it fails only because the source fails: against a source trace with
no failing read it never returns an error.  The remaining operations
(`new`, `input`, `result`, `output_size`, `digest`, `input_str`) are
embedded as plain total functions with no error component in their result
type, matching their infallible Rust signatures. -/
theorem only_digest_reader_can_fail (A : HashAlg σ) (evs : List (ReadEv ε))
    (hne : ∀ ev ∈ evs, ReadEv.isOk ev = true) (e : ε) :
    digest_reader A evs ≠ RunResult.err e := by
  unfold digest_reader
  intro hcon
  rcases hl : digestReaderLoop A A.default (List.replicate 1024 0) evs with
    h2 | e2 | _ | _ <;> rw [hl] at hcon <;> try simp at hcon
  subst hcon
  exact digestReaderLoop_ne_err A e2 evs A.default (List.replicate 1024 0) hne hl

theorem digestReaderLoop_ne_panic (A : HashAlg σ) (evs : List (ReadEv ε)) :
    ∀ (h : σ) (buf : List Nat), buf.length = 1024 →
    (∀ ev ∈ evs, ReadEv.reported ev ≤ 1024) →
    digestReaderLoop A h buf evs ≠ RunResult.panic := by
  induction evs with
  | nil => intro h buf _ _; simp [digestReaderLoop]
  | cons ev rest ih =>
    intro h buf hb hr
    cases ev with
    | err e => simp [digestReaderLoop]
    | ok n w =>
      have hn : n ≤ 1024 := hr (.ok n w) (by simp)
      have hle : n ≤ (writeBuf buf w).length := by
        rw [writeBuf_length]; omega
      simp only [digestReaderLoop]
      rw [if_pos hle]
      by_cases h0 : n = 0
      · rw [if_pos h0]; simp
      · rw [if_neg h0]
        exact ih _ _ (by rw [writeBuf_length, hb])
          (fun ev hev => hr ev (by simp [hev]))

/-- Claim C9: the slice `&buffer[..bytes_read]` in `digest_reader` is in
bounds — the panic branch unreachable — exactly when every read reports
at most 1024 bytes: if each event reports at most 1024 bytes the run
never panics, and a source reporting 1025 bytes read makes the slice out
of bounds and the run panic. -/
theorem digest_reader_slice_in_bounds :
    (∀ (σ ε : Type) (A : HashAlg σ) (evs : List (ReadEv ε)),
        (∀ ev ∈ evs, ReadEv.reported ev ≤ 1024) →
        digest_reader A evs ≠ RunResult.panic) ∧
    digest_reader (ε := Unit) toyAlg [ReadEv.ok 1025 []] = RunResult.panic := by
  constructor
  · intro σ ε A evs hr
    unfold digest_reader
    intro hcon
    rcases hl : digestReaderLoop A A.default (List.replicate 1024 0) evs with
      h2 | e2 | _ | _ <;> rw [hl] at hcon <;> try simp at hcon
    exact digestReaderLoop_ne_panic A evs A.default (List.replicate 1024 0)
      (by rw [List.length_replicate]) hr hl
  · unfold digest_reader
    have hlen : (writeBuf (List.replicate 1024 (0 : Nat)) []).length = 1024 := by
      rw [writeBuf_length, List.length_replicate]
    have hloop : digestReaderLoop (ε := Unit) toyAlg toyAlg.default
        (List.replicate 1024 0) [ReadEv.ok 1025 []] = RunResult.panic := by
      simp only [digestReaderLoop]
      rw [if_neg (by rw [hlen]; omega)]
    rw [hloop]

/-- Claim C1: for every byte sequence `data`, the one-shot
`Digest::digest(data)` equals `fixed_result` of a default-constructed
hasher fed `data` by one `input` call, i.e. the output component of
`result (input (new) data)`. -/
theorem digest_eq_finalize_update_construct (A : HashAlg σ) (data : List Nat) :
    digest A data = (A.fixed_result (input A (new A) data)).1 ∧
    digest A data = (result A (input A (new A) data)).1 :=
  ⟨rfl, rfl⟩

/-- Claim C5: for every string `s`, `input_str s` equals `digest` applied
to the UTF-8 byte encoding of `s`. -/
theorem input_str_eq_digest_utf8 (A : HashAlg σ) (s : String) :
    input_str A s = digest A (utf8Bytes s) :=
  rfl

/-- Claim C10: the facade's `result` is observably identical to the
underlying `fixed_result`: same output and same post-finalize hasher
state, with no re-initialization performed by the facade. -/
theorem result_eq_fixed_result (A : HashAlg σ) (h : σ) :
    result A h = A.fixed_result h :=
  rfl

/-- Claim C6: for every algorithm whose `fixed_result` honours the
declared `OutputSize` and every hasher state, the output of the facade's
`result` has length `output_size` — a quantity the embedding computes
from the algorithm record alone, no hasher instance involved. -/
theorem result_length_eq_output_size (A : HashAlg σ)
    (hlen : ∀ h, (A.fixed_result h).1.length = A.outputSize) (h : σ) :
    (result A h).1.length = output_size A :=
  hlen h

/-- Claim C7: when `process` of an empty buffer is a no-op,
`digest` of the empty byte sequence equals the output of `result` on a
freshly default-constructed hasher with zero further update calls. -/
theorem digest_empty_eq_finalize_construct (A : HashAlg σ)
    (hemp : ∀ h, A.process h [] = h) :
    digest A [] = (result A (new A)).1 := by
  unfold digest result new input
  rw [hemp]

theorem digest_reader_eq_digest_stream_spec_witness :
    digest_reader (ε := Unit) toyAlg
      ([SpecRead.chunk [97, 98], SpecRead.chunk [99, 100],
        SpecRead.chunk []].map SpecRead.toEv) =
    digest_stream_spec toyAlg
      [SpecRead.chunk [97, 98], SpecRead.chunk [99, 100], SpecRead.chunk []] :=
  digest_reader_eq_digest_stream_spec toyAlg
    [SpecRead.chunk [97, 98], SpecRead.chunk [99, 100], SpecRead.chunk []]
    (by decide)

theorem digest_reader_surfaces_read_failure_witness :
    digest_reader toyAlg ([[97, 98]].map chunkEv ++ ReadEv.err 7 :: []) =
      RunResult.err 7 :=
  digest_reader_surfaces_read_failure toyAlg [[97, 98]] 7 [] (by decide)

theorem digest_reader_chunks_eq_digest_concat_witness :
    digest_reader (ε := Unit) toyAlg
      (([[97, 98], [99, 100]] : List (List Nat)).map chunkEv ++ [chunkEv []]) =
      RunResult.ok (digest toyAlg ([[97, 98], [99, 100]] : List (List Nat)).flatten) :=
  digest_reader_chunks_eq_digest_concat toyAlg toyAlg_process_empty
    toyAlg_process_append [[97, 98], [99, 100]] (by decide)

theorem result_length_eq_output_size_witness :
    (result toyAlg [1, 2, 3]).1.length = output_size toyAlg :=
  result_length_eq_output_size toyAlg toyAlg_output_len [1, 2, 3]

theorem digest_empty_eq_finalize_construct_witness :
    digest toyAlg [] = (result toyAlg (new toyAlg)).1 :=
  digest_empty_eq_finalize_construct toyAlg toyAlg_process_empty

theorem only_digest_reader_can_fail_witness :
    digest_reader toyAlg [ReadEv.ok 2 [5, 6], ReadEv.ok 0 []] ≠ RunResult.err 3 :=
  only_digest_reader_can_fail toyAlg [ReadEv.ok 2 [5, 6], ReadEv.ok 0 []]
    (by decide) 3

theorem digest_reader_slice_in_bounds_witness :
    digest_reader (ε := Unit) toyAlg [ReadEv.ok 2 [97, 98]] ≠ RunResult.panic :=
  digest_reader_slice_in_bounds.1 (List Nat) Unit toyAlg [ReadEv.ok 2 [97, 98]]
    (by decide)

end Traits
